import Mathlib

/-!
Verification of the code_summary repository: a shallow embedding of the two
Node.js scripts (`codeSummary.js`, called CS below, and the subcommand variant
`generateDirectory`, called GD below) together with proofs about the embedded
definitions.

JavaScript strings are modelled as `List Char` (`JStr`); a filesystem snapshot
is a tree of `FSEntry` values where a directory's listing is `none` when the
underlying `readdirSync` call would throw; side effects (console logging,
`writeFileSync` calls, the outbound HTTP request) are made explicit as returned
data.
-/

/-- A JavaScript string, modelled as its list of characters. -/
abbrev JStr := List Char

/-- JS `s.startsWith(p)`: `p` is a literal leading substring of `s`. -/
def jsStartsWith (s p : JStr) : Bool := List.isPrefixOf p s

/-- JS `s.endsWith(p)`: `p` is a literal trailing substring of `s`. -/
def jsEndsWith (s p : JStr) : Bool := List.isSuffixOf p s

/-- Characters recognised by the model of JS `String.prototype.trim` and of
the regular expression class `\s` (the common ASCII whitespace characters). -/
def jsWhitespace (c : Char) : Bool :=
  c == ' ' || c == '\t' || c == '\n' || c == '\r' || c == '\x0b' || c == '\x0c'

/-- JS `s.trim()`: strip leading and trailing whitespace. -/
def jsTrim (s : JStr) : JStr :=
  ((s.dropWhile jsWhitespace).reverse.dropWhile jsWhitespace).reverse

/-- Node `path.join(a, b)` for the shapes that occur in this program: the
second argument is a plain directory-entry name (no separators, not `.` or
`..`), so joining appends it behind a `/`, except that a root of `.` or the
empty string normalises away. -/
def jsPathJoin (a b : JStr) : JStr :=
  if a = ['.'] then b else if a = [] then b else a ++ '/' :: b

/-- Node `path.relative(base, p)` for the shapes that occur in this program:
`p` was produced by `jsPathJoin` chains below `base`, so the relative path is
`p` with the leading `base ++ "/"` removed (or `p` itself when `base` is not
a leading directory of `p`). -/
def jsPathRelative (base p : JStr) : JStr :=
  if List.isPrefixOf (base ++ ['/']) p then p.drop (base.length + 1) else p

/-- Node `path.extname(p)`: the part of the last path component from its last
`.` to the end; a `.` that is the first character of the component does not
count, and a component without such a `.` has extension `""`. -/
def jsExtname (p : JStr) : JStr :=
  let base := (p.reverse.takeWhile (fun c => c ≠ '/')).reverse
  if (base.drop 1).contains '.' then
    '.' :: (base.reverse.takeWhile (fun c => c ≠ '.')).reverse
  else []

/-- JS `Array.prototype.join(sep)` on a list of strings. -/
def jsJoin (sep : JStr) : List JStr → JStr
  | [] => []
  | [s] => s
  | s :: rest => s ++ sep ++ jsJoin sep rest

/-- JS `s.toLowerCase()`, restricted to the per-character lowering that the
program's inputs (ASCII section titles) exercise. -/
def jsToLower (s : JStr) : JStr := s.map Char.toLower

/-- JS `s.replace(/\s+/g, '-')`: each maximal run of whitespace becomes a
single `-`. -/
def collapseWs : JStr → JStr
  | [] => []
  | c :: rest =>
    if jsWhitespace c then '-' :: collapseWs (rest.dropWhile jsWhitespace)
    else c :: collapseWs rest
termination_by s => s.length
decreasing_by
  · have h := (List.dropWhile_suffix (l := rest) jsWhitespace).length_le
    simp only [List.length_cons]
    omega
  · simp

/-- The exclusion filter `isExcluded`, identical in both scripts.  The source
closes over a module-level rule list (`EXCLUDE` in GD, `excludedFiles` in CS);
the list is lifted to a parameter here.  A rule starting with `*` matches any
name ending in the rule's remaining suffix; any other rule matches only the
name equal to it. -/
def isExcluded (excludeList : List JStr) (name : JStr) : Bool :=
  excludeList.any fun pat =>
    if jsStartsWith pat ['*'] then jsEndsWith name (pat.drop 1)
    else name == pat

/-- What happens at a file when the program `statSync`s and `readFileSync`s
it: `statSize = none` models a throwing `statSync`, otherwise the reported
size; `readData = none` models a throwing read (permission or decode
failure), otherwise the file's text content. -/
structure FileOnDisk where
  statSize : Option Nat
  readData : Option JStr
deriving DecidableEq

/-- One entry of a directory listing, with the subtree needed to interpret
the program's later filesystem calls on it.  A directory's `listing` is
`none` when reading that directory would throw.  `other` stands for a
dirent that is neither a regular file nor a directory (symlink, socket,
...), for which `isFile()` and `isDirectory()` are both false. -/
inductive FSEntry where
  | file : JStr → FileOnDisk → FSEntry
  | dir : JStr → Option (List FSEntry) → FSEntry
  | other : JStr → FileOnDisk → FSEntry

/-- The dirent's `name`. -/
def FSEntry.name : FSEntry → JStr
  | .file n _ => n
  | .dir n _ => n
  | .other n _ => n

/-- Dirent `isDirectory()`. -/
def FSEntry.isDirectory : FSEntry → Bool
  | .dir _ _ => true
  | _ => false

/-- Dirent `isFile()`. -/
def FSEntry.isFile : FSEntry → Bool
  | .file _ _ => true
  | _ => false

/-- `readFileContent(filePath, maxSize = 1000000)`, identical in both
scripts: stat the file, skip it (`none`) when the size exceeds `maxSize`,
otherwise read it; any thrown error is caught and also yields `none`. -/
def readFileContent (f : FileOnDisk) (maxSize : Nat := 1000000) : Option JStr :=
  match f.statSize with
  | none => none
  | some size => if size > maxSize then none else f.readData

/-- The observable outcome of the one `axios.post` call: `failure` models a
rejected promise (transport error or non-2xx status); `response d` models a
fulfilled promise whose `response.data` is `d`, where `d`'s `choices` field
may be absent, and each element of `choices` is `some c` when
`.message.content` is the string `c` and `none` when that access would
throw. -/
structure RespData where
  choices : Option (List (Option JStr))

/-- The outcome of the remote call, as seen by `sendToOpenRouter`. -/
inductive ApiResult where
  | failure : ApiResult
  | response : Option RespData → ApiResult

/-- Does the response have the `choices[0].message.content` shape that yields
a non-catch result? -/
def hasContentShape : ApiResult → Bool
  | .response (some ⟨some (some _ :: _)⟩) => true
  | _ => false

/-- `sendToOpenRouter(prompt)`, identical response handling in both scripts:
returns the trimmed `choices[0].message.content` when present; a missing or
empty `choices` logs a warning and returns `''`; a `choices[0]` without the
`message.content` shape throws inside the `try`, is caught, logged, and also
returns `''`; a rejected request is caught, logged, and returns `''`.  The
second component is the list of emitted error/warning log lines. -/
def sendToOpenRouter (prompt : JStr) (r : ApiResult) : JStr × List JStr :=
  match r with
  | .failure => ([], ["Error communicating with OpenRouter API.".data])
  | .response none => ([], ["No response from OpenRouter API.".data])
  | .response (some d) =>
    match d.choices with
    | none => ([], ["No response from OpenRouter API.".data])
    | some [] => ([], ["No response from OpenRouter API.".data])
    | some (none :: _) => ([], ["Error communicating with OpenRouter API.".data])
    | some (some c :: _) => (jsTrim c, [])

/-- `jsStartsWith r "*"` holds exactly when `r` begins with the character
`*`. -/
theorem jsStartsWith_star (r : JStr) :
    jsStartsWith r ['*'] = true ↔ ∃ t, r = '*' :: t := by
  cases r with
  | nil => simp [jsStartsWith, List.isPrefixOf]
  | cons c t =>
    simp only [jsStartsWith, List.isPrefixOf, List.isPrefixOf_nil_left,
      Bool.and_true]
    constructor
    · intro h
      exact ⟨t, by rw [show c = '*' from (beq_iff_eq.mp h).symm]⟩
    · rintro ⟨t', ht⟩
      cases ht
      simp

/-- `jsEndsWith n s` holds exactly when `s` is a suffix of `n`. -/
theorem jsEndsWith_suffix (n s : JStr) :
    jsEndsWith n s = true ↔ s <:+ n := by
  simp [jsEndsWith, List.isSuffixOf_iff_suffix]

/-- C1: for every name `n` and rule set `R`, `isExcluded R n` is true iff `n`
exactly equals some literal (non-`*`) rule of `R`, or `n` ends with the
suffix of some wildcard rule `* ++ s` of `R`; in particular it is false for
every `n` when `R` is empty, and the name `log` does not match the rule
`*.log` (the comparison is exact-suffix, not extension-only). -/
theorem isExcluded_matches_iff :
    (∀ (R : List JStr) (n : JStr),
        isExcluded R n = true ↔
          ((∃ r ∈ R, (¬ ∃ t, r = '*' :: t) ∧ n = r) ∨
            ∃ s, ('*' :: s) ∈ R ∧ s <:+ n))
    ∧ (∀ n : JStr, isExcluded [] n = false)
    ∧ isExcluded ["*.log".data] "log".data = false := by
  refine ⟨?_, ?_, by decide⟩
  · intro R n
    simp only [isExcluded, List.any_eq_true]
    constructor
    · rintro ⟨r, hr, hpred⟩
      by_cases hstar : jsStartsWith r ['*'] = true
      · obtain ⟨t, rfl⟩ := (jsStartsWith_star r).mp hstar
        rw [if_pos hstar] at hpred
        exact Or.inr ⟨t, hr, (jsEndsWith_suffix n t).mp hpred⟩
      · rw [if_neg hstar] at hpred
        refine Or.inl ⟨r, hr, ?_, beq_iff_eq.mp hpred⟩
        intro hex
        exact hstar ((jsStartsWith_star r).mpr hex)
    · rintro (⟨r, hr, hnot, heq⟩ | ⟨s, hs, hsuf⟩)
      · subst heq
        refine ⟨n, hr, ?_⟩
        have hstar : jsStartsWith n ['*'] = false := by
          cases h : jsStartsWith n ['*']
          · rfl
          · exact absurd ((jsStartsWith_star n).mp h) hnot
        rw [if_neg (by simp [hstar])]
        exact beq_self_eq_true n
      · refine ⟨'*' :: s, hs, ?_⟩
        have hstar : jsStartsWith ('*' :: s) ['*'] = true :=
          (jsStartsWith_star _).mpr ⟨s, rfl⟩
        rw [if_pos hstar]
        simpa using (jsEndsWith_suffix n s).mpr hsuf
  · intro n
    simp [isExcluded]

/-- C4: `readFileContent` returns `none` when the reported size exceeds the
ceiling; returns exactly the file's content when the size is within the
ceiling and the read succeeds; returns `none` (never an exception) when the
stat or the read fails; and the ceiling defaults to `1000000`. -/
theorem readFileContent_spec :
    (∀ (f : FileOnDisk) (m s : Nat), f.statSize = some s → s > m →
        readFileContent f m = none)
    ∧ (∀ (f : FileOnDisk) (m s : Nat) (c : JStr), f.statSize = some s →
        s ≤ m → f.readData = some c → readFileContent f m = some c)
    ∧ (∀ (f : FileOnDisk) (m : Nat), f.statSize = none ∨ f.readData = none →
        readFileContent f m = none)
    ∧ ∀ f : FileOnDisk, readFileContent f = readFileContent f 1000000 := by
  refine ⟨?_, ?_, ?_, fun f => rfl⟩
  · intro f m s hstat hgt
    simp [readFileContent, hstat, hgt]
  · intro f m s c hstat hle hread
    simp [readFileContent, hstat, Nat.not_lt.mpr hle, hread]
  · rintro f m (hstat | hread)
    · simp [readFileContent, hstat]
    · cases hstat : f.statSize with
      | none => simp [readFileContent, hstat]
      | some s =>
        by_cases h : s > m
        · simp [readFileContent, hstat, h]
        · simp [readFileContent, hstat, h, hread]

/-- Witness for C4: a 3-byte file under a 10-byte ceiling is returned
verbatim. -/
theorem readFileContent_spec_witness :
    readFileContent ⟨some 3, some "abc".data⟩ 10 = some "abc".data :=
  readFileContent_spec.2.1 ⟨some 3, some "abc".data⟩ 10 3 "abc".data rfl
    (by decide) rfl

/-- C6: whenever the remote call fails at the transport level or the response
body lacks the `choices[0].message.content` shape, `sendToOpenRouter` returns
the empty string and emits a log line reporting the problem; being a total
function of the modelled outcome, it never escalates an exception to its
caller. -/
theorem sendToOpenRouter_failure_empty :
    ∀ (p : JStr) (r : ApiResult), hasContentShape r = false →
      (sendToOpenRouter p r).1 = [] ∧ (sendToOpenRouter p r).2 ≠ [] := by
  intro p r h
  match r with
  | .failure => simp [sendToOpenRouter]
  | .response none => simp [sendToOpenRouter]
  | .response (some ⟨none⟩) => simp [sendToOpenRouter]
  | .response (some ⟨some []⟩) => simp [sendToOpenRouter]
  | .response (some ⟨some (none :: rest)⟩) => simp [sendToOpenRouter]
  | .response (some ⟨some (some c :: rest)⟩) => simp [hasContentShape] at h

/-- Witness for C6: a transport failure yields the empty string and a
non-empty log. -/
theorem sendToOpenRouter_failure_empty_witness :
    (sendToOpenRouter [] ApiResult.failure).1 = [] ∧
      (sendToOpenRouter [] ApiResult.failure).2 ≠ [] :=
  sendToOpenRouter_failure_empty [] ApiResult.failure rfl

/-- The sizeOf of a filtered list is at most the sizeOf of the list. -/
theorem sizeOf_filter_le {α : Type} [SizeOf α] (p : α → Bool) (l : List α) :
    sizeOf (l.filter p) ≤ sizeOf l := by
  induction l with
  | nil => simp
  | cons a l ih =>
    rw [List.filter_cons]
    by_cases h : p a
    · simp only [h, if_pos]
      simp only [List.cons.sizeOf_spec]
      omega
    · simp only [h, Bool.false_eq_true, if_neg, not_false_iff]
      simp only [List.cons.sizeOf_spec]
      omega

namespace GD

/-- The module-level `EXCLUDE` rule list of the generateDirectory script. -/
def EXCLUDE : List JStr :=
  ["node_modules".data, ".git".data, "dist".data, "build".data,
   "coverage".data, ".vscode".data, "*.log".data, "*.tmp".data,
   "package-lock.json".data, "yarn.lock".data]

/-- The `console.error` line emitted when `readdirSync(dirPath)` throws. -/
def errReadDir (dirPath : JStr) : JStr :=
  "Error reading directory: ".data ++ dirPath

/-- The connector printed before the last surviving entry of a level. -/
def lastPointer : JStr := "└── ".data

/-- The connector printed before a non-last surviving entry of a level. -/
def midPointer : JStr := "├── ".data

/-- The indentation appended below a last entry: four spaces. -/
def lastIndent : JStr := "    ".data

/-- The indentation appended below a non-last entry: a bar and three
spaces. -/
def midIndent : JStr := "│   ".data

mutual

/-- `buildDirectoryTree(dirPath, prefix)` from the generateDirectory script:
list the directory (a throwing `readdirSync` is caught, logged, and yields
the empty string), drop excluded names, and render the remaining entries.
The first component is the accumulated `tree` string, the second the
`console.error` lines emitted while building it. -/
def buildDirectoryTree (excl : List JStr) (dirPath : JStr)
    (listing : Option (List FSEntry)) (pre : JStr) : JStr × List JStr :=
  match listing with
  | none => ([], [errReadDir dirPath])
  | some items =>
    renderItems excl dirPath
      (items.filter fun it => !(isExcluded excl it.name)) pre
termination_by sizeOf listing
decreasing_by
  have h := sizeOf_filter_le (fun it => !(isExcluded excl it.name)) items
  simp only [Option.some.sizeOf_spec]
  omega

/-- The `filteredItems.forEach` loop of `buildDirectoryTree`: each entry gets
one line `prefix + pointer + name + "\n"` where the pointer is `└── ` exactly
when the entry is last in the filtered list, and a directory entry recurses
with the prefix extended by `    ` (last) or `│   ` (not last). -/
def renderItems (excl : List JStr) (dirPath : JStr)
    (items : List FSEntry) (pre : JStr) : JStr × List JStr :=
  match items with
  | [] => ([], [])
  | FSEntry.dir n l :: rest =>
    let isLast := rest.isEmpty
    let sub := buildDirectoryTree excl (jsPathJoin dirPath n) l
        (pre ++ (if isLast then lastIndent else midIndent))
    let tailPart := renderItems excl dirPath rest pre
    (pre ++ (if isLast then lastPointer else midPointer) ++ n ++ ['\n']
        ++ sub.1 ++ tailPart.1,
      sub.2 ++ tailPart.2)
  | e :: rest =>
    let isLast := rest.isEmpty
    let tailPart := renderItems excl dirPath rest pre
    (pre ++ (if isLast then lastPointer else midPointer) ++ e.name ++ ['\n']
        ++ tailPart.1,
      tailPart.2)
termination_by sizeOf items
decreasing_by
  · simp only [List.cons.sizeOf_spec, FSEntry.dir.sizeOf_spec]
    omega
  · simp only [List.cons.sizeOf_spec]
    omega
  · simp only [List.cons.sizeOf_spec]
    omega

end

end GD

/-- C3: when listing a directory fails, the builder reports the error to the
log and returns the empty string for that subtree (first conjunct); and a
failing directory in the middle of a level contributes only its own line and
its error report, after which the remaining siblings are still rendered — the
traversal is pruned locally, never aborted globally (second conjunct). -/
theorem tree_error_pruning :
    (∀ (excl : List JStr) (dirPath pre : JStr),
        GD.buildDirectoryTree excl dirPath none pre =
          ([], [GD.errReadDir dirPath]))
    ∧ ∀ (excl : List JStr) (dirPath pre n : JStr) (rest : List FSEntry),
        GD.renderItems excl dirPath (FSEntry.dir n none :: rest) pre =
          (pre ++ (if rest.isEmpty then GD.lastPointer else GD.midPointer)
              ++ n ++ ['\n'] ++ (GD.renderItems excl dirPath rest pre).1,
            GD.errReadDir (jsPathJoin dirPath n)
              :: (GD.renderItems excl dirPath rest pre).2) := by
  constructor
  · intro excl dirPath pre
    rw [GD.buildDirectoryTree]
  · intro excl dirPath pre n rest
    rw [GD.renderItems, GD.buildDirectoryTree]
    simp

mutual

/-- No `\n` occurs in this entry's name nor anywhere in its subtree. -/
def entryNamesOk : FSEntry → Bool
  | .file n _ => !(n.contains '\n')
  | .other n _ => !(n.contains '\n')
  | .dir n l => !(n.contains '\n') && listingNamesOk l

/-- No `\n` occurs in any name reachable from this listing. -/
def listingNamesOk : Option (List FSEntry) → Bool
  | none => true
  | some items => itemsNamesOk items

/-- No `\n` occurs in any name reachable from these entries. -/
def itemsNamesOk : List FSEntry → Bool
  | [] => true
  | e :: rest => entryNamesOk e && itemsNamesOk rest

end

/-- A list that does not `contains` a character does not contain it. -/
theorem nmem_of_contains_eq_false {n : JStr} {c : Char}
    (h : n.contains c = false) : c ∉ n := by
  intro hmem
  have : n.contains c = true :=
    List.contains_iff_exists_mem_beq.mpr ⟨c, hmem, by simp⟩
  rw [h] at this
  exact Bool.false_ne_true this

/-- Filtering preserves `itemsNamesOk`. -/
theorem itemsNamesOk_filter (p : FSEntry → Bool) {items : List FSEntry}
    (h : itemsNamesOk items = true) : itemsNamesOk (items.filter p) = true := by
  induction items with
  | nil => simpa using h
  | cons e rest ih =>
    rw [itemsNamesOk, Bool.and_eq_true] at h
    rw [List.filter_cons]
    by_cases hp : p e
    · simp only [hp, if_pos]
      rw [itemsNamesOk, Bool.and_eq_true]
      exact ⟨h.1, ih h.2⟩
    · simp only [hp, Bool.false_eq_true, if_neg, not_false_iff]
      exact ih h.2

/-- Indentation prefixes reachable by the tree builder: any concatenation of
the blocks `"    "` and `"│   "`. -/
inductive PrefixBlocks : JStr → Prop
  | nil : PrefixBlocks []
  | space (p : JStr) : PrefixBlocks p → PrefixBlocks (p ++ GD.lastIndent)
  | bar (p : JStr) : PrefixBlocks p → PrefixBlocks (p ++ GD.midIndent)

/-- A well-formed tree line: an indentation made of the two blocks, then
exactly one of the two connectors, then a newline-free entry name. -/
def TreeLine (l : JStr) : Prop :=
  ∃ (p : JStr) (b : Bool) (n : JStr), PrefixBlocks p ∧ '\n' ∉ n ∧
    l = p ++ (if b then GD.lastPointer else GD.midPointer) ++ n

/-- A string that is a concatenation of newline-terminated well-formed tree
lines. -/
inductive LinesOf : JStr → Prop
  | nil : LinesOf []
  | cons (l rest : JStr) : TreeLine l → LinesOf rest → LinesOf (l ++ '\n' :: rest)

/-- Concatenations of line blocks are line blocks. -/
theorem LinesOf.append {a b : JStr} (ha : LinesOf a) (hb : LinesOf b) :
    LinesOf (a ++ b) := by
  induction ha with
  | nil => simpa using hb
  | cons l rest hl _ ih =>
    rw [List.append_assoc, List.cons_append]
    exact LinesOf.cons l (rest ++ b) hl ih

/-- Size-bounded induction for the tree-builder pair: every output within the
size bound is a concatenation of well-formed lines. -/
theorem tree_lines_aux : ∀ k : Nat,
    (∀ (excl : List JStr) (dirPath : JStr) (listing : Option (List FSEntry))
        (pre : JStr), sizeOf listing ≤ k → PrefixBlocks pre →
        listingNamesOk listing = true →
        LinesOf (GD.buildDirectoryTree excl dirPath listing pre).1)
    ∧ (∀ (excl : List JStr) (dirPath : JStr) (items : List FSEntry)
        (pre : JStr), sizeOf items ≤ k → PrefixBlocks pre →
        itemsNamesOk items = true →
        LinesOf (GD.renderItems excl dirPath items pre).1) := by
  intro k
  induction k using Nat.strong_induction_on with
  | _ k ih =>
    constructor
    · intro excl dirPath listing pre hk hpre hnames
      match listing with
      | none =>
        rw [GD.buildDirectoryTree]
        exact LinesOf.nil
      | some items =>
        rw [GD.buildDirectoryTree]
        have hflt := sizeOf_filter_le
          (fun it => !(isExcluded excl it.name)) items
        have hlt : sizeOf items < k := by
          simp only [Option.some.sizeOf_spec] at hk
          omega
        exact (ih (sizeOf items) hlt).2 excl dirPath _ pre hflt hpre
          (itemsNamesOk_filter _ (by simpa [listingNamesOk] using hnames))
    · intro excl dirPath items pre hk hpre hnames
      match items with
      | [] =>
        rw [GD.renderItems]
        exact LinesOf.nil
      | FSEntry.dir n l :: rest =>
        rw [GD.renderItems]
        simp only []
        rw [itemsNamesOk, Bool.and_eq_true] at hnames
        rw [entryNamesOk, Bool.and_eq_true] at hnames
        have hszl : sizeOf l < k := by
          simp only [List.cons.sizeOf_spec, FSEntry.dir.sizeOf_spec] at hk
          omega
        have hszr : sizeOf rest < k := by
          simp only [List.cons.sizeOf_spec] at hk
          omega
        have hpre' : PrefixBlocks
            (pre ++ (if rest.isEmpty then GD.lastIndent else GD.midIndent)) := by
          by_cases hL : rest.isEmpty
          · simpa [hL] using PrefixBlocks.space pre hpre
          · simpa [hL] using PrefixBlocks.bar pre hpre
        have hsub := (ih (sizeOf l) hszl).1 excl (jsPathJoin dirPath n) l
          (pre ++ (if rest.isEmpty then GD.lastIndent else GD.midIndent))
          (Nat.le_refl _) hpre' hnames.1.2
        have htail := (ih (sizeOf rest) hszr).2 excl dirPath rest pre
          (Nat.le_refl _) hpre hnames.2
        have hline : TreeLine
            (pre ++ (if rest.isEmpty then GD.lastPointer else GD.midPointer)
              ++ n) :=
          ⟨pre, rest.isEmpty, n, hpre,
            nmem_of_contains_eq_false (by simpa using hnames.1.1), rfl⟩
        have := LinesOf.cons _ _ hline (hsub.append htail)
        simpa [List.append_assoc] using this
      | FSEntry.file n d :: rest =>
        rw [GD.renderItems]
        case x => intro _ _ h; cases h
        simp only []
        rw [itemsNamesOk, Bool.and_eq_true] at hnames
        have hszr : sizeOf rest < k := by
          simp only [List.cons.sizeOf_spec] at hk
          omega
        have htail := (ih (sizeOf rest) hszr).2 excl dirPath rest pre
          (Nat.le_refl _) hpre hnames.2
        have hline : TreeLine
            (pre ++ (if rest.isEmpty then GD.lastPointer else GD.midPointer)
              ++ (FSEntry.file n d).name) :=
          ⟨pre, rest.isEmpty, n, hpre,
            nmem_of_contains_eq_false
              (by simpa [entryNamesOk] using hnames.1), rfl⟩
        have := LinesOf.cons _ _ hline htail
        simpa [List.append_assoc] using this
      | FSEntry.other n d :: rest =>
        rw [GD.renderItems]
        case x => intro _ _ h; cases h
        simp only []
        rw [itemsNamesOk, Bool.and_eq_true] at hnames
        have hszr : sizeOf rest < k := by
          simp only [List.cons.sizeOf_spec] at hk
          omega
        have htail := (ih (sizeOf rest) hszr).2 excl dirPath rest pre
          (Nat.le_refl _) hpre hnames.2
        have hline : TreeLine
            (pre ++ (if rest.isEmpty then GD.lastPointer else GD.midPointer)
              ++ (FSEntry.other n d).name) :=
          ⟨pre, rest.isEmpty, n, hpre,
            nmem_of_contains_eq_false
              (by simpa [entryNamesOk] using hnames.1), rfl⟩
        have := LinesOf.cons _ _ hline htail
        simpa [List.append_assoc] using this

/-- C2: (1) for any snapshot whose entry names contain no newline (file
names cannot), every line of the tree builder's output is an indentation
made only of the blocks `"    "` and `"│   "`, followed by exactly one of
`"└── "` or `"├── "`, followed by the entry name; and (2)–(4) every rendered
entry — directory, regular file, or other dirent — gets the `└── ` connector
exactly when it is the last surviving entry of its level (`rest.isEmpty`
after filtering) and `├── ` otherwise, and a directory's children are
rendered under the parent's prefix extended by four spaces in the last case
and by `│   ` otherwise. -/
theorem tree_line_structure :
    (∀ (excl : List JStr) (dirPath : JStr) (listing : Option (List FSEntry))
        (pre : JStr), PrefixBlocks pre → listingNamesOk listing = true →
        LinesOf (GD.buildDirectoryTree excl dirPath listing pre).1)
    ∧ (∀ (excl : List JStr) (dirPath pre n : JStr)
        (l : Option (List FSEntry)) (rest : List FSEntry),
        GD.renderItems excl dirPath (FSEntry.dir n l :: rest) pre =
          (pre ++ (if rest.isEmpty then GD.lastPointer else GD.midPointer)
              ++ n ++ ['\n']
              ++ (GD.buildDirectoryTree excl (jsPathJoin dirPath n) l
                    (pre ++ (if rest.isEmpty then GD.lastIndent
                             else GD.midIndent))).1
              ++ (GD.renderItems excl dirPath rest pre).1,
            (GD.buildDirectoryTree excl (jsPathJoin dirPath n) l
                (pre ++ (if rest.isEmpty then GD.lastIndent
                         else GD.midIndent))).2
              ++ (GD.renderItems excl dirPath rest pre).2))
    ∧ (∀ (excl : List JStr) (dirPath pre n : JStr) (d : FileOnDisk)
        (rest : List FSEntry),
        GD.renderItems excl dirPath (FSEntry.file n d :: rest) pre =
          (pre ++ (if rest.isEmpty then GD.lastPointer else GD.midPointer)
              ++ n ++ ['\n'] ++ (GD.renderItems excl dirPath rest pre).1,
            (GD.renderItems excl dirPath rest pre).2))
    ∧ ∀ (excl : List JStr) (dirPath pre n : JStr) (d : FileOnDisk)
        (rest : List FSEntry),
        GD.renderItems excl dirPath (FSEntry.other n d :: rest) pre =
          (pre ++ (if rest.isEmpty then GD.lastPointer else GD.midPointer)
              ++ n ++ ['\n'] ++ (GD.renderItems excl dirPath rest pre).1,
            (GD.renderItems excl dirPath rest pre).2) := by
  refine ⟨?_, ?_, ?_, ?_⟩
  · intro excl dirPath listing pre hpre hnames
    exact (tree_lines_aux (sizeOf listing)).1 excl dirPath listing pre
      (Nat.le_refl _) hpre hnames
  · intro excl dirPath pre n l rest
    rw [GD.renderItems]
  · intro excl dirPath pre n d rest
    rw [GD.renderItems]
    case x => intro _ _ h; cases h
    simp [FSEntry.name]
  · intro excl dirPath pre n d rest
    rw [GD.renderItems]
    case x => intro _ _ h; cases h
    simp [FSEntry.name]

/-- Witness for C2 on a one-file snapshot. -/
theorem tree_line_structure_witness :
    LinesOf (GD.buildDirectoryTree [] []
      (some [FSEntry.file ['a'] ⟨some 1, some ['x']⟩]) []).1 :=
  tree_line_structure.1 [] [] _ [] PrefixBlocks.nil
    (by simp [listingNamesOk, itemsNamesOk, entryNamesOk])

namespace GD

mutual

/-- `getAllFiles(dirPath, arrayOfFiles = [])` from the generateDirectory
script: list the directory (a throwing `readdirSync` propagates, modelled as
`Except.error`), and for each non-excluded entry either recurse (directory),
append the joined path (regular file), or skip it (any other dirent).  The
source pushes the path string and re-reads the file later; the model pairs
each pushed path with the file's on-disk data so that the later read is
well-defined on the snapshot. -/
def getAllFiles (excl : List JStr) (dirPath : JStr)
    (listing : Option (List FSEntry)) (acc : List (JStr × FileOnDisk)) :
    Except Unit (List (JStr × FileOnDisk)) :=
  match listing with
  | none => .error ()
  | some items => collectItems excl dirPath items acc
termination_by sizeOf listing
decreasing_by
  simp only [Option.some.sizeOf_spec]
  omega

/-- The `files.forEach` loop of `getAllFiles`. -/
def collectItems (excl : List JStr) (dirPath : JStr)
    (items : List FSEntry) (acc : List (JStr × FileOnDisk)) :
    Except Unit (List (JStr × FileOnDisk)) :=
  match items with
  | [] => .ok acc
  | e :: rest =>
    if isExcluded excl e.name then collectItems excl dirPath rest acc
    else
      match e with
      | .dir n l =>
        match getAllFiles excl (jsPathJoin dirPath n) l acc with
        | .error err => .error err
        | .ok acc2 => collectItems excl dirPath rest acc2
      | .file n d =>
        collectItems excl dirPath rest (acc ++ [(jsPathJoin dirPath n, d)])
      | .other _ _ => collectItems excl dirPath rest acc
termination_by sizeOf items
decreasing_by
  · simp only [List.cons.sizeOf_spec]
    omega
  · simp only [List.cons.sizeOf_spec, FSEntry.dir.sizeOf_spec]
    omega
  · simp only [List.cons.sizeOf_spec]
    omega
  · simp only [List.cons.sizeOf_spec]
    omega
  · simp only [List.cons.sizeOf_spec]
    omega

end

end GD

/-- A path that the collector is allowed to return: the root joined with a
chain of directory names and a final file name, none of which matches an
exclusion rule. -/
def SafePath (excl : List JStr) (root p : JStr) : Prop :=
  ∃ (dirs : List JStr) (fname : JStr),
    p = List.foldl jsPathJoin root (dirs ++ [fname]) ∧
    isExcluded excl fname = false ∧
    ∀ d ∈ dirs, isExcluded excl d = false

/-- Prepending a non-excluded directory to a safe path keeps it safe. -/
theorem SafePath.lift {excl : List JStr} {dirPath n p : JStr}
    (h : SafePath excl (jsPathJoin dirPath n) p)
    (hn : isExcluded excl n = false) : SafePath excl dirPath p := by
  obtain ⟨dirs, fname, hp, hf, hd⟩ := h
  refine ⟨n :: dirs, fname, ?_, hf, ?_⟩
  · simpa [List.foldl_cons] using hp
  · intro d hdm
    rcases List.mem_cons.mp hdm with rfl | hdm
    · exact hn
    · exact hd d hdm

/-- Size-bounded induction for the collector pair: every element of an `ok`
result was already in the accumulator or is a safe path under the current
directory. -/
theorem collect_safe_aux : ∀ k : Nat,
    (∀ (excl : List JStr) (dirPath : JStr) (listing : Option (List FSEntry))
        (acc res : List (JStr × FileOnDisk)), sizeOf listing ≤ k →
        GD.getAllFiles excl dirPath listing acc = .ok res →
        ∀ x ∈ res, x ∈ acc ∨ SafePath excl dirPath x.1)
    ∧ (∀ (excl : List JStr) (dirPath : JStr) (items : List FSEntry)
        (acc res : List (JStr × FileOnDisk)), sizeOf items ≤ k →
        GD.collectItems excl dirPath items acc = .ok res →
        ∀ x ∈ res, x ∈ acc ∨ SafePath excl dirPath x.1) := by
  intro k
  induction k using Nat.strong_induction_on with
  | _ k ih =>
    constructor
    · intro excl dirPath listing acc res hk h x hx
      match listing with
      | none =>
        rw [GD.getAllFiles] at h
        cases h
      | some items =>
        rw [GD.getAllFiles] at h
        have hlt : sizeOf items < k := by
          simp only [Option.some.sizeOf_spec] at hk
          omega
        exact (ih (sizeOf items) hlt).2 excl dirPath items acc res
          (Nat.le_refl _) h x hx
    · intro excl dirPath items acc res hk h x hx
      match items with
      | [] =>
        rw [GD.collectItems] at h
        simp only [Except.ok.injEq] at h
        subst h
        exact Or.inl hx
      | FSEntry.dir n l :: rest =>
        have hszr : sizeOf rest < k := by
          simp only [List.cons.sizeOf_spec] at hk
          omega
        rw [GD.collectItems] at h
        by_cases hex : isExcluded excl (FSEntry.dir n l).name = true
        · rw [if_pos hex] at h
          exact (ih _ hszr).2 excl dirPath rest acc res (Nat.le_refl _) h x hx
        · rw [if_neg hex] at h
          cases hga : GD.getAllFiles excl (jsPathJoin dirPath n) l acc with
          | error err =>
            rw [hga] at h
            cases h
          | ok acc2 =>
            rw [hga] at h
            have hszl : sizeOf l < k := by
              simp only [List.cons.sizeOf_spec, FSEntry.dir.sizeOf_spec] at hk
              omega
            rcases (ih _ hszr).2 excl dirPath rest acc2 res
                (Nat.le_refl _) h x hx with hx2 | hs
            · rcases (ih (sizeOf l) hszl).1 excl (jsPathJoin dirPath n) l acc
                  acc2 (Nat.le_refl _) hga x hx2 with hx3 | hs3
              · exact Or.inl hx3
              · refine Or.inr (hs3.lift ?_)
                simpa [FSEntry.name] using hex
            · exact Or.inr hs
      | FSEntry.file n d :: rest =>
        have hszr : sizeOf rest < k := by
          simp only [List.cons.sizeOf_spec] at hk
          omega
        rw [GD.collectItems] at h
        by_cases hex : isExcluded excl (FSEntry.file n d).name = true
        · rw [if_pos hex] at h
          exact (ih _ hszr).2 excl dirPath rest acc res (Nat.le_refl _) h x hx
        · rw [if_neg hex] at h
          rcases (ih _ hszr).2 excl dirPath rest
              (acc ++ [(jsPathJoin dirPath n, d)]) res (Nat.le_refl _) h x hx
            with hx2 | hs
          · rcases List.mem_append.mp hx2 with hx3 | hx3
            · exact Or.inl hx3
            · refine Or.inr ⟨[], n, ?_, ?_, by simp⟩
              · rcases List.mem_singleton.mp hx3 with rfl
                simp
              · simpa [FSEntry.name] using hex
          · exact Or.inr hs
      | FSEntry.other n d :: rest =>
        have hszr : sizeOf rest < k := by
          simp only [List.cons.sizeOf_spec] at hk
          omega
        rw [GD.collectItems] at h
        by_cases hex : isExcluded excl (FSEntry.other n d).name = true
        · rw [if_pos hex] at h
          exact (ih _ hszr).2 excl dirPath rest acc res (Nat.le_refl _) h x hx
        · rw [if_neg hex] at h
          exact (ih _ hszr).2 excl dirPath rest acc res (Nat.le_refl _) h x hx

/-- C5: every path returned by the collector decomposes as the root joined
with a chain of directory names and a final file name, where the file name
does not match any exclusion rule and no ancestor directory name below the
root matched any exclusion rule at traversal time. -/
theorem getAllFiles_no_excluded :
    ∀ (excl : List JStr) (root : JStr) (listing : Option (List FSEntry))
      (res : List (JStr × FileOnDisk)),
      GD.getAllFiles excl root listing [] = .ok res →
      ∀ x ∈ res, SafePath excl root x.1 := by
  intro excl root listing res h x hx
  rcases (collect_safe_aux (sizeOf listing)).1 excl root listing [] res
      (Nat.le_refl _) h x hx with h' | h'
  · exact absurd h' (List.not_mem_nil x)
  · exact h'

/-- Witness for C5 on a one-file snapshot. -/
theorem getAllFiles_no_excluded_witness :
    SafePath [] [] ['a'] :=
  getAllFiles_no_excluded [] []
    (some [FSEntry.file ['a'] ⟨some 1, some ['x']⟩])
    [(['a'], ⟨some 1, some ['x']⟩)]
    (by simp [GD.getAllFiles, GD.collectItems, isExcluded, jsPathJoin,
      FSEntry.name])
    (['a'], ⟨some 1, some ['x']⟩) (by simp)

namespace CS

/-- The `excludedDirs` constant of codeSummary.js. -/
def excludedDirs : List JStr :=
  [".vscode".data, "node_modules".data, ".git".data, "dist".data,
   "build".data, ".svelte-kit".data]

/-- The `outputFile` constant of codeSummary.js. -/
def outputFile : JStr := "CodeAnalysis.md".data

/-- The `excludedFiles` constant of codeSummary.js (it includes the output
file itself). -/
def excludedFiles : List JStr :=
  ["main.js".data, outputFile, "codeSummary.cjs".data,
   "package-lock.json".data, "yarn.lock".data, ".env".data, "*.log".data,
   "*.tmp".data, ".gitignore".data]

/-- The fence language tag of a file block in `analyzeCodebase`'s prompt:
`path.extname(file).substring(1) || 'txt'`. -/
def fenceTag (file : JStr) : JStr :=
  let e := (jsExtname file).drop 1
  if e.isEmpty then "txt".data else e

/-- One per-file block of `analyzeCodebase`'s prompt:
`### file` then a fenced content block tagged by the file's extension. -/
def fileBlock (rc : JStr × JStr) : JStr :=
  "### ".data ++ rc.1 ++ "\n```".data ++ fenceTag rc.1 ++ ['\n'] ++ rc.2
    ++ "\n```".data

/-- The fixed text of `analyzeCodebase`'s prompt before the trimmed tree. -/
def promptHead : JStr :=
  ("\nAct as an expert in analyzing and improving codebases. I have a codebase with the following directory structure:\n\n```\n").data

/-- The fixed text between the tree and the file blocks. -/
def promptMid : JStr :=
  "\n```\n\nBelow are the files and their contents:\n\n".data

/-- The fixed instruction text after the file blocks. -/
def promptTail : JStr :=
  ("\n\nYou will provide a detailed analysis of the codebase, including:\n\n- A summary of what the codebase does.\n- A one sentence purpose of the main directories and files.\n- How the different parts of the codebase interact with each other as [[wikilinks]]. (e.g. [[index.js]] orchestrates [[test.js]], [[blank.js]] and [[operation.js]])\n- Any SPECIFIC improvements or best practices that could be applied.\n\nPlease be thorough and avoid including code snippets in your response.\n").data

/-- The prompt template literal built inside `analyzeCodebase`: fixed
scaffolding around the trimmed directory tree and the file blocks joined by
blank lines, in the file mapping's insertion order (`Object.entries` on a
string-keyed object preserves insertion order, modelled by the list
order). -/
def analyzeCodebasePrompt (directoryTree : JStr)
    (fileData : List (JStr × JStr)) : JStr :=
  promptHead ++ jsTrim directoryTree ++ promptMid
    ++ jsJoin "\n\n".data (fileData.map fileBlock) ++ promptTail

/-- `analyzeCodebase(directoryTree, fileData)`: an empty file mapping logs an
error and returns `''` without calling `sendToOpenRouter`; otherwise the
prompt is assembled and sent, and an empty reply is logged and returned as
`''`.  Result components: the returned analysis string, whether the remote
request was issued, and the error/warning log lines. -/
def analyzeCodebase (directoryTree : JStr) (fileData : List (JStr × JStr))
    (api : ApiResult) : JStr × Bool × List JStr :=
  if fileData.isEmpty then
    ([], false, ["Error: No files available for analysis.".data])
  else
    let sent := sendToOpenRouter (analyzeCodebasePrompt directoryTree fileData) api
    if sent.1.isEmpty then
      ([], true, sent.2 ++ ["Error: No analysis was received from OpenRouter.".data])
    else (sent.1, true, sent.2)

end CS

namespace GD

/-- One per-file block of `mainAnalyze`'s prompt: `#### file` then a fenced
content block tagged `path.extname(file).substring(1)` (no fallback tag). -/
def fileBlock (rc : JStr × JStr) : JStr :=
  "#### ".data ++ rc.1 ++ "\n```".data ++ (jsExtname rc.1).drop 1 ++ ['\n']
    ++ rc.2 ++ "\n```".data

/-- The fixed text of `mainAnalyze`'s prompt before the project name. -/
def promptHead : JStr :=
  "\nI am analyzing a codebase for a project named \"".data

/-- The fixed instruction text between the project name and the file
blocks. -/
def promptMid : JStr :=
  ("\". Below are the files along with their contents.\n\nFor each file:\n1. Provide a brief explanation of what the file does.\n2. Explain how it fits within the overall program.\n3. Identify any other files it interacts with or depends on.\n\nPlease format the response as follows for each file:\n\n### [Relative/File Path]\n\n**Purpose:**\n[Explanation of the file's purpose]\n\n**Role in the Project:**\n[Description of how it fits into the project]\n\n**Dependencies and Interactions:**\n[List of other files it interacts with or depends on]\n\n---\n\nHere are the files and their contents:\n\n").data

/-- The prompt template literal built inside `mainAnalyze`: fixed
scaffolding around the project name and the file blocks joined by blank
lines, in insertion order. -/
def mainAnalyzePrompt (projectName : JStr)
    (fileData : List (JStr × JStr)) : JStr :=
  promptHead ++ projectName ++ promptMid
    ++ jsJoin "\n\n".data (fileData.map fileBlock) ++ "\n".data

end GD

/-- C7: prompt assembly is a pure function in both variants — identical
inputs give identical prompt strings (first two conjuncts); the per-file
blocks appear joined by blank lines exactly in the input mapping's insertion
order (third and fourth conjuncts, where `List.map` preserves order and
arity); and each block's fence tag is derived from the file's extension
(last two conjuncts; codeSummary.js falls back to `txt` for an empty
extension, the generateDirectory variant leaves the tag empty). -/
theorem assemblePrompt_pure :
    (∀ (t1 t2 : JStr) (fd1 fd2 : List (JStr × JStr)), t1 = t2 → fd1 = fd2 →
        CS.analyzeCodebasePrompt t1 fd1 = CS.analyzeCodebasePrompt t2 fd2)
    ∧ (∀ (p1 p2 : JStr) (fd1 fd2 : List (JStr × JStr)), p1 = p2 → fd1 = fd2 →
        GD.mainAnalyzePrompt p1 fd1 = GD.mainAnalyzePrompt p2 fd2)
    ∧ (∀ (t : JStr) (fd : List (JStr × JStr)),
        CS.analyzeCodebasePrompt t fd =
          CS.promptHead ++ jsTrim t ++ CS.promptMid
            ++ jsJoin "\n\n".data (fd.map CS.fileBlock) ++ CS.promptTail)
    ∧ (∀ (fd : List (JStr × JStr)) (i : Nat) (h : i < fd.length),
        (fd.map CS.fileBlock).get ⟨i, by simpa using h⟩ =
          CS.fileBlock (fd.get ⟨i, h⟩))
    ∧ (∀ f c, CS.fileBlock (f, c) =
        "### ".data ++ f ++ "\n```".data ++ CS.fenceTag f ++ ['\n'] ++ c
          ++ "\n```".data)
    ∧ ∀ f c, GD.fileBlock (f, c) =
        "#### ".data ++ f ++ "\n```".data ++ (jsExtname f).drop 1 ++ ['\n']
          ++ c ++ "\n```".data := by
  refine ⟨?_, ?_, fun t fd => rfl, ?_, fun f c => rfl, fun f c => rfl⟩
  · intro t1 t2 fd1 fd2 ht hfd
    rw [ht, hfd]
  · intro p1 p2 fd1 fd2 hp hfd
    rw [hp, hfd]
  · intro fd i h
    simp [List.get_eq_getElem, List.getElem_map]

/-- Witness for C7: two calls on equal concrete inputs agree. -/
theorem assemblePrompt_pure_witness :
    CS.analyzeCodebasePrompt "t".data [(['a'], ['x'])] =
      CS.analyzeCodebasePrompt "t".data [(['a'], ['x'])] :=
  assemblePrompt_pure.1 "t".data "t".data [(['a'], ['x'])] [(['a'], ['x'])]
    rfl rfl

/-- C9: with an empty file-record mapping, `analyzeCodebase` logs the
no-files error and returns the empty string, and the remote-request flag is
`false` for every possible remote outcome — no HTTP request is issued. -/
theorem analyzeCodebase_empty_no_request :
    ∀ (t : JStr) (api : ApiResult),
      CS.analyzeCodebase t [] api =
        ([], false, ["Error: No files available for analysis.".data]) := by
  intro t api
  rfl

namespace GD

/-- The `generate` output file name `<projectName>_directory_<dateTime>.txt`. -/
def genOutputFileName (projectName dateTime : JStr) : JStr :=
  projectName ++ "_directory_".data ++ dateTime ++ ".txt".data

/-- `mainGenerate()`: build the tree of the working directory and issue one
`writeFileSync(outputPath, directoryTree)` call (a throwing write is caught
and only logged).  The project name, taken from `package.json` or the folder
name, and the formatted invocation time are environment inputs and appear as
parameters.  The result is the list of write calls `(path, content)` the run
performs. -/
def mainGenerate (excl : List JStr) (projectPath projectName dateTime : JStr)
    (listing : Option (List FSEntry)) : List (JStr × JStr) :=
  [(jsPathJoin projectPath (genOutputFileName projectName dateTime),
    (buildDirectoryTree excl projectPath listing []).1)]

/-- The `analyze` output file name `<projectName>_analysis_<dateTime>.txt`. -/
def outputFileName (projectName dateTime : JStr) : JStr :=
  projectName ++ "_analysis_".data ++ dateTime ++ ".txt".data

/-- The file-data collection loop of `mainAnalyze`: collect all files (a
throwing `readdirSync` propagates), then keep, in traversal order, each file
whose `readFileContent` is non-null, keyed by its path relative to the
project root. -/
def collectFileData (excl : List JStr) (projectPath : JStr)
    (listing : Option (List FSEntry)) : Except Unit (List (JStr × JStr)) :=
  match getAllFiles excl projectPath listing [] with
  | .error e => .error e
  | .ok allFiles =>
    .ok (allFiles.foldl (fun fd pd =>
      match readFileContent pd.2 with
      | some c => fd ++ [(jsPathRelative projectPath pd.1, c)]
      | none => fd) [])

/-- `mainAnalyze()`: collect the file data, assemble the prompt, send it,
and issue the single `writeFileSync(outputPath, analysis)` call only when
the returned analysis is non-empty (an empty result is only logged).  The
result is the list of write calls `(path, content)` the run performs. -/
def mainAnalyze (excl : List JStr) (projectPath projectName dateTime : JStr)
    (listing : Option (List FSEntry)) (api : ApiResult) :
    Except Unit (List (JStr × JStr)) :=
  match collectFileData excl projectPath listing with
  | .error e => .error e
  | .ok fd =>
    let analysis := (sendToOpenRouter (mainAnalyzePrompt projectName fd) api).1
    .ok (if analysis.isEmpty then []
         else [(jsPathJoin projectPath (outputFileName projectName dateTime),
                analysis)])

end GD

/-- Shape of a completed `mainAnalyze` run: the write-call list is empty
when the remote analysis text is empty and a single complete write
otherwise. -/
theorem mainAnalyze_ok_shape :
    ∀ (excl : List JStr) (projectPath projectName dateTime : JStr)
      (listing : Option (List FSEntry)) (api : ApiResult)
      (w : List (JStr × JStr)),
      GD.mainAnalyze excl projectPath projectName dateTime listing api = .ok w →
      ∃ fd, GD.collectFileData excl projectPath listing = .ok fd ∧
        w = (if ((sendToOpenRouter (GD.mainAnalyzePrompt projectName fd) api).1).isEmpty
             then []
             else [(jsPathJoin projectPath (GD.outputFileName projectName dateTime),
                    (sendToOpenRouter (GD.mainAnalyzePrompt projectName fd) api).1)]) := by
  intro excl pp pn dt listing api w h
  unfold GD.mainAnalyze at h
  cases hfd : GD.collectFileData excl pp listing with
  | error e =>
    rw [hfd] at h
    cases h
  | ok fd =>
    rw [hfd] at h
    simp only [Except.ok.injEq] at h
    exact ⟨fd, rfl, h.symm⟩

/-- C10: whenever `mainAnalyze` completes (its traversal did not throw), the
analysis output path receives a write exactly when the remote analysis text
is non-empty, and the written content is that text; in particular an empty
analysis (failure or no content) creates no output file at all. -/
theorem mainAnalyze_writes_iff_nonempty :
    ∀ (excl : List JStr) (projectPath projectName dateTime : JStr)
      (listing : Option (List FSEntry)) (api : ApiResult)
      (w : List (JStr × JStr)),
      GD.mainAnalyze excl projectPath projectName dateTime listing api = .ok w →
      ∃ fd, GD.collectFileData excl projectPath listing = .ok fd ∧
        w = (if ((sendToOpenRouter (GD.mainAnalyzePrompt projectName fd) api).1).isEmpty
             then []
             else [(jsPathJoin projectPath (GD.outputFileName projectName dateTime),
                    (sendToOpenRouter (GD.mainAnalyzePrompt projectName fd) api).1)]) :=
  mainAnalyze_ok_shape

/-- Witness for C10: on an empty snapshot with a failing remote call, the
run completes and performs no write. -/
theorem mainAnalyze_writes_iff_nonempty_witness :
    ∃ fd, GD.collectFileData [] [] (some []) = .ok fd ∧
      ([] : List (JStr × JStr)) =
        (if ((sendToOpenRouter (GD.mainAnalyzePrompt [] fd) ApiResult.failure).1).isEmpty
         then []
         else [(jsPathJoin [] (GD.outputFileName [] []),
                (sendToOpenRouter (GD.mainAnalyzePrompt [] fd) ApiResult.failure).1)]) :=
  mainAnalyze_writes_iff_nonempty [] [] [] [] (some []) ApiResult.failure []
    (by simp [GD.mainAnalyze, GD.collectFileData, GD.getAllFiles,
      GD.collectItems, sendToOpenRouter])

/-- The `sort((a, b) => a.name.localeCompare(b.name))` steps of
`getSortedItems`: collation is locale- and engine-dependent, so the sort is
modelled as an arbitrary function that permutes its input. -/
structure NameSort where
  sortFn : List FSEntry → List FSEntry
  isPerm : ∀ l, List.Perm (sortFn l) l

namespace CS

/-- `getSortedItems(dir, excludeDirs, excludeFiles)`: drop directories whose
name is in `excludeDirs` and regular files matching `isExcluded` (the source
calls the module-level filter, which closes over the `excludedFiles`
constant, ignoring its `excludeFiles` parameter); then list the surviving
directories, sorted by name, before the surviving non-directories, sorted by
name. -/
def getSortedItems (ns : NameSort) (excludeDirs excludeFiles : List JStr)
    (items : List FSEntry) : List FSEntry :=
  let filteredItems := items.filter fun it =>
    !(it.isDirectory && excludeDirs.contains it.name) &&
    !(it.isFile && isExcluded excludedFiles it.name)
  ns.sortFn (filteredItems.filter fun it => it.isDirectory)
    ++ ns.sortFn (filteredItems.filter fun it => !it.isDirectory)

end CS

/-- `getSortedItems` permutes the filtered listing. -/
theorem getSortedItems_perm (ns : NameSort)
    (excludeDirs excludeFiles : List JStr) (items : List FSEntry) :
    List.Perm (CS.getSortedItems ns excludeDirs excludeFiles items)
      (items.filter fun it =>
        !(it.isDirectory && excludeDirs.contains it.name) &&
        !(it.isFile && isExcluded CS.excludedFiles it.name)) := by
  unfold CS.getSortedItems
  refine ((ns.isPerm _).append (ns.isPerm _)).trans ?_
  exact List.filter_append_perm (fun it : FSEntry => it.isDirectory) _

/-- `getSortedItems` never grows the listing's size. -/
theorem sizeOf_getSortedItems_le (ns : NameSort)
    (excludeDirs excludeFiles : List JStr) (items : List FSEntry) :
    sizeOf (CS.getSortedItems ns excludeDirs excludeFiles items) ≤
      sizeOf items := by
  have h1 := (getSortedItems_perm ns excludeDirs excludeFiles items).sizeOf_eq_sizeOf
  have h2 := sizeOf_filter_le (fun it =>
    !(it.isDirectory && excludeDirs.contains it.name) &&
    !(it.isFile && isExcluded CS.excludedFiles it.name)) items
  omega

namespace CS

mutual

/-- `generateDirectoryTree(dir, prefix, isLast, excludeDirs, excludeFiles)`
from codeSummary.js: no `try` surrounds the directory listing, so a throwing
`readdirSync` propagates (`Except.error`); surviving entries are rendered in
sorted order with the same connectors and prefix extension as the other
variant.  The `isLast` parameter is carried but, as in the source, unused. -/
def generateDirectoryTree (ns : NameSort) (excludeDirs excludeFiles : List JStr)
    (listing : Option (List FSEntry)) (pre : JStr) (isLast : Bool) :
    Except Unit JStr :=
  match listing with
  | none => .error ()
  | some items =>
    goItems ns excludeDirs excludeFiles
      (getSortedItems ns excludeDirs excludeFiles items) pre
termination_by sizeOf listing
decreasing_by
  have h := sizeOf_getSortedItems_le ns excludeDirs excludeFiles items
  simp only [Option.some.sizeOf_spec]
  omega

/-- The indexed `for` loop of `generateDirectoryTree`. -/
def goItems (ns : NameSort) (excludeDirs excludeFiles : List JStr)
    (items : List FSEntry) (pre : JStr) : Except Unit JStr :=
  match items with
  | [] => .ok []
  | FSEntry.dir n l :: rest =>
    let isLast := rest.isEmpty
    match generateDirectoryTree ns excludeDirs excludeFiles l
        (pre ++ (if isLast then GD.lastIndent else GD.midIndent)) isLast with
    | .error e => .error e
    | .ok sub =>
      match goItems ns excludeDirs excludeFiles rest pre with
      | .error e => .error e
      | .ok tailStr =>
        .ok (pre ++ (if isLast then GD.lastPointer else GD.midPointer) ++ n
          ++ ['\n'] ++ sub ++ tailStr)
  | e :: rest =>
    let isLast := rest.isEmpty
    match goItems ns excludeDirs excludeFiles rest pre with
    | .error er => .error er
    | .ok tailStr =>
      .ok (pre ++ (if isLast then GD.lastPointer else GD.midPointer)
        ++ e.name ++ ['\n'] ++ tailStr)
termination_by sizeOf items
decreasing_by
  · simp only [List.cons.sizeOf_spec, FSEntry.dir.sizeOf_spec]
    omega
  · simp only [List.cons.sizeOf_spec]
    omega
  · simp only [List.cons.sizeOf_spec]
    omega

end

mutual

/-- `getAllFiles(dir, excludeDirs, excludeFiles)` from codeSummary.js: a
directory recurses unless its name is in `excludeDirs`; every non-directory
dirent (regular or not) is pushed unless `isExcluded` (the module-level
filter over the `excludedFiles` constant) matches its name.  No `try`
surrounds the listing, so a throwing `readdirSync` propagates.  As in the
GD variant, each pushed path carries the file's on-disk data. -/
def getAllFiles (excludeDirs excludeFiles : List JStr) (dirPath : JStr)
    (listing : Option (List FSEntry)) :
    Except Unit (List (JStr × FileOnDisk)) :=
  match listing with
  | none => .error ()
  | some items => collectItems excludeDirs excludeFiles dirPath items
termination_by sizeOf listing
decreasing_by
  simp only [Option.some.sizeOf_spec]
  omega

/-- The `for` loop of codeSummary.js's `getAllFiles`. -/
def collectItems (excludeDirs excludeFiles : List JStr) (dirPath : JStr)
    (items : List FSEntry) : Except Unit (List (JStr × FileOnDisk)) :=
  match items with
  | [] => .ok []
  | FSEntry.dir n l :: rest =>
    if excludeDirs.contains n then
      collectItems excludeDirs excludeFiles dirPath rest
    else
      match getAllFiles excludeDirs excludeFiles (jsPathJoin dirPath n) l with
      | .error e => .error e
      | .ok nested =>
        match collectItems excludeDirs excludeFiles dirPath rest with
        | .error e => .error e
        | .ok tl => .ok (nested ++ tl)
  | FSEntry.file n d :: rest =>
    if isExcluded excludedFiles n then
      collectItems excludeDirs excludeFiles dirPath rest
    else
      match collectItems excludeDirs excludeFiles dirPath rest with
      | .error e => .error e
      | .ok tl => .ok ((jsPathJoin dirPath n, d) :: tl)
  | FSEntry.other n d :: rest =>
    if isExcluded excludedFiles n then
      collectItems excludeDirs excludeFiles dirPath rest
    else
      match collectItems excludeDirs excludeFiles dirPath rest with
      | .error e => .error e
      | .ok tl => .ok ((jsPathJoin dirPath n, d) :: tl)
termination_by sizeOf items
decreasing_by
  · simp only [List.cons.sizeOf_spec]
    omega
  · simp only [List.cons.sizeOf_spec, FSEntry.dir.sizeOf_spec]
    omega
  · simp only [List.cons.sizeOf_spec]
    omega
  · simp only [List.cons.sizeOf_spec]
    omega
  · simp only [List.cons.sizeOf_spec]
    omega
  · simp only [List.cons.sizeOf_spec]
    omega
  · simp only [List.cons.sizeOf_spec]
    omega

end

/-- `generateTableOfContents(sections)`: a heading, one `- [name](#anchor)`
line per section with the anchor lowercased and whitespace runs replaced by
dashes, then a blank line. -/
def generateTableOfContents (sections : List JStr) : JStr :=
  List.foldl (fun toc s =>
      toc ++ "- [".data ++ s ++ "](#".data ++ collapseWs (jsToLower s)
        ++ ")\n".data)
    "# Table of Contents\n\n".data sections ++ "\n".data

/-- The content-assembly part of codeSummary.js's `main()`: everything after
the initial clearing write and before the final write.  Builds the tree
section, collects the files, reads their contents, obtains the analysis,
renders the code-files section, and concatenates table of contents and the
three sections.  Any filesystem listing error inside propagates to `main`'s
`catch`. -/
def mainContent (ns : NameSort) (listing : Option (List FSEntry))
    (api : ApiResult) : Except Unit JStr :=
  match generateDirectoryTree ns excludedDirs excludedFiles listing [] true with
  | .error e => .error e
  | .ok directoryTree =>
    let sectionDirectory := "```\n".data ++ directoryTree ++ "\n```".data
    match getAllFiles excludedDirs excludedFiles ['.'] listing with
    | .error e => .error e
    | .ok allFiles =>
      let fileData := allFiles.foldl (fun fd pd =>
        match readFileContent pd.2 with
        | some c => fd ++ [(pd.1, c)]
        | none => fd) []
      let analysis := (analyzeCodebase sectionDirectory fileData api).1
      let codeFilesContent := fileData.foldl (fun acc rc =>
        acc ++ "## ".data ++ rc.1 ++ "\n\n".data ++ "```".data
          ++ (jsExtname rc.1).drop 1 ++ ['\n'] ++ rc.2 ++ "\n```\n\n".data) []
      let toc := generateTableOfContents
        ["Directory".data, "Analysis".data, "Code Files".data]
      .ok (toc
        ++ "# Directory\n\n".data ++ sectionDirectory ++ "\n\n".data
        ++ "# Analysis\n\n".data ++ analysis ++ "\n\n".data
        ++ "# Code Files\n\n".data ++ codeFilesContent ++ "\n\n".data)

/-- `main()` of codeSummary.js, as its trace of `writeFile` calls
`(path, content)`: first the initializing `writeFile(outputFile, '')`
(`initOk` tells whether that await succeeded; if not, the `catch` ends the
run), then, if the assembly completes, the single final
`writeFile(outputFile, finalContent)`. -/
def main (ns : NameSort) (listing : Option (List FSEntry)) (api : ApiResult)
    (initOk : Bool) : List (JStr × JStr) :=
  (outputFile, []) ::
    (if initOk then
      match mainContent ns listing api with
      | .ok c => [(outputFile, c)]
      | .error _ => []
    else [])

end CS

/-- C8: no run writes partially assembled content to an output file.  In
codeSummary.js the only writes to the output file are the initializing
clear (`''`) and, when assembly completes, one final write of the fully
assembled content — never an incremental append (first conjunct).  The
generateDirectory variant performs exactly one complete write of the whole
tree in `generate` mode (second conjunct), and in `analyze` mode either no
write or one complete write of the whole analysis (third conjunct). -/
theorem output_single_complete_write :
    (∀ (ns : NameSort) (listing : Option (List FSEntry)) (api : ApiResult)
        (initOk : Bool),
        CS.main ns listing api initOk = [(CS.outputFile, [])] ∨
        ∃ c, CS.mainContent ns listing api = .ok c ∧
          CS.main ns listing api initOk =
            [(CS.outputFile, []), (CS.outputFile, c)])
    ∧ (∀ (excl : List JStr) (projectPath projectName dateTime : JStr)
        (listing : Option (List FSEntry)),
        GD.mainGenerate excl projectPath projectName dateTime listing =
          [(jsPathJoin projectPath (GD.genOutputFileName projectName dateTime),
            (GD.buildDirectoryTree excl projectPath listing []).1)])
    ∧ ∀ (excl : List JStr) (projectPath projectName dateTime : JStr)
        (listing : Option (List FSEntry)) (api : ApiResult)
        (w : List (JStr × JStr)),
        GD.mainAnalyze excl projectPath projectName dateTime listing api =
          .ok w →
        w = [] ∨ ∃ c,
          w = [(jsPathJoin projectPath
                  (GD.outputFileName projectName dateTime), c)] := by
  refine ⟨?_, fun excl pp pn dt listing => rfl, ?_⟩
  · intro ns listing api initOk
    cases initOk with
    | false => exact Or.inl rfl
    | true =>
      cases hc : CS.mainContent ns listing api with
      | error e =>
        refine Or.inl ?_
        simp [CS.main, hc]
      | ok c =>
        refine Or.inr ⟨c, rfl, ?_⟩
        simp [CS.main, hc]
  · intro excl pp pn dt listing api w h
    rcases mainAnalyze_ok_shape excl pp pn dt listing api w h
      with ⟨fd, _, hw⟩
    by_cases he :
        ((sendToOpenRouter (GD.mainAnalyzePrompt pn fd) api).1).isEmpty
    · rw [hw, if_pos he]
      exact Or.inl rfl
    · rw [hw, if_neg he]
      exact Or.inr ⟨_, rfl⟩

/-- Witness for C8: an `analyze` run over an empty snapshot with a failing
remote call completes with no write at all. -/
theorem output_single_complete_write_witness :
    ([] : List (JStr × JStr)) = [] ∨ ∃ c,
      ([] : List (JStr × JStr)) =
        [(jsPathJoin ['p'] (GD.outputFileName ['p'] ['d']), c)] :=
  output_single_complete_write.2.2 [] ['p'] ['p'] ['d'] (some [])
    ApiResult.failure []
    (by simp [GD.mainAnalyze, GD.collectFileData, GD.getAllFiles,
      GD.collectItems, sendToOpenRouter])
